import Mathlib

/-!
Verification of the content lifecycle and storage-consistency protocol of the
Clinikk TV backend.

The development shallowly embeds the Python source:
- `services/content_service.py` (MIME validation, record CRUD),
- `services/storage_service.py` (key derivation, upload / delete / presign,
  URL-to-key parsing via `urllib.parse.urlparse`),
- `controllers/content_controllers.py` (create / update / delete / stream
  orchestration and error handling),
- `routes/content_routes.py` (construction of the update payload).

External effects are modelled explicitly: the object store is a list of keys,
the database a list of records, and each fallible store call takes a Boolean
or `Except`-valued oracle describing the outcome of that call.
-/

namespace ClinikkTV

/-- Environment-sourced settings (config.py); only the storage fields matter
for the content lifecycle. -/
structure Settings where
  STORAGE_BUCKET : String
  AWS_REGION : String
  deriving DecidableEq, Repr

/-- `models/content_type.py`: `class ContentType(str, enum.Enum)` with
`VIDEO = "video"`, `AUDIO = "audio"`. -/
inductive ContentType where
  | video
  | audio
  deriving DecidableEq, Repr

/-- The underlying string value of the enum member (`.value` in Python; the
`str` mixin makes the member compare equal to this value). -/
def ContentType.value : ContentType → String
  | .video => "video"
  | .audio => "audio"

/-- The fields of a FastAPI `UploadFile` that the code reads: the
client-supplied file name and the declared MIME type (`file.content_type`). -/
structure UploadFile where
  filename : String
  mime_type : String
  deriving DecidableEq, Repr

/-- `content_service.py` line 28. -/
def allowed_video_types : List String := ["video/mp4", "video/mpeg"]

/-- `content_service.py` line 29. -/
def allowed_audio_types : List String := ["audio/mpeg", "audio/mp3", "audio/wav"]

/-- `ContentService.validate_file_type` (content_service.py lines 17-35):
dispatch on the requested content type string, then membership of the file
MIME type in the fixed allow-list.  Callers pass the `ContentType` enum member,
which by the `str` mixin compares equal to its `.value`. -/
def ContentService.validate_file_type (file : UploadFile) (content_type : String) : Bool :=
  if content_type == "video" then allowed_video_types.contains file.mime_type
  else if content_type == "audio" then allowed_audio_types.contains file.mime_type
  else false

/-- Python `str.split('.')` at the character level: split into the (always
nonempty) list of dot-separated segments. -/
def split_dots : List Char → List (List Char)
  | [] => [[]]
  | c :: cs =>
    if c = '.' then [] :: split_dots cs
    else
      match split_dots cs with
      | s :: rest => (c :: s) :: rest
      | [] => [[c]]

/-- `file.filename.split('.')[-1]` (storage_service.py line 70): the final
dot-segment of the client-supplied filename, taken verbatim (for a filename
without a dot this is the whole filename, as in Python). -/
def file_extension (filename : String) : String :=
  ⟨(split_dots filename.data).getLastD []⟩

/-- `unique_filename = f"{ct}/{content_id}.{file_extension}"`
(storage_service.py line 71): the object-store key. -/
def StorageService.unique_filename (file : UploadFile) (content_type : ContentType)
    (content_id : String) : String :=
  content_type.value ++ "/" ++ content_id ++ "." ++ file_extension file.filename

/-- The fully-qualified URL returned for a stored key
(storage_service.py line 85):
`f"https://{settings.STORAGE_BUCKET}.s3.{settings.AWS_REGION}.amazonaws.com/{unique_filename}"`. -/
def url_of_key (S : Settings) (key : String) : String :=
  "https://" ++ S.STORAGE_BUCKET ++ ".s3." ++ S.AWS_REGION ++ ".amazonaws.com/" ++ key

/-- The storage URL returned by a successful `StorageService.upload_file`. -/
def StorageService.upload_url (S : Settings) (file : UploadFile) (content_type : ContentType)
    (content_id : String) : String :=
  url_of_key S (StorageService.unique_filename file content_type content_id)

/-! ### URL parsing (`urllib.parse.urlparse(...).path.lstrip('/')`)

`StorageService.delete_file` (lines 133-134) and
`StorageService.generate_presigned_url` (lines 105-106) both recover the
object key from a storage URL as `urlparse(url).path.lstrip('/')`.  The
definitions below model CPython `urlparse` far enough to compute `.path`
exactly: leading C0-control/space stripping, removal of tab/CR/LF, scheme
removal, netloc removal, fragment then query splitting, and the params split
on the last path segment performed by `urlparse` (not `urlsplit`). -/

/-- Bytes removed from a URL before parsing (`_UNSAFE_URL_BYTES_TO_REMOVE`). -/
def url_removed_char (c : Char) : Bool :=
  c == '\t' || c == '\n' || c == '\r'

/-- WHATWG C0 control or space, stripped from the front of the URL. -/
def c0_or_space (c : Char) : Bool :=
  c.toNat ≤ 32

/-- Characters allowed in a URL scheme (`scheme_chars` in urllib). -/
def scheme_char (c : Char) : Bool :=
  c.isAlphanum || c == '+' || c == '-' || c == '.'

/-- Scheme removal: if a `':'` occurs after a nonempty ASCII-alphabetic-headed
run of scheme characters, drop everything through that `':'`. -/
def split_scheme (l : List Char) : List Char :=
  let before := l.takeWhile (fun c => c != ':')
  if before.length < l.length ∧ before ≠ [] ∧ before.all scheme_char = true ∧
      (match l.head? with
       | some c => c.isAlpha
       | none => false) = true then
    l.drop (before.length + 1)
  else l

/-- Netloc removal (`_splitnetloc`): when the remainder starts with `"//"`,
drop the authority, which extends to the next `'/'`, `'?'` or `'#'`. -/
def split_netloc (l : List Char) : List Char :=
  match l with
  | '/' :: '/' :: rest => rest.dropWhile (fun c => !(c == '/' || c == '?' || c == '#'))
  | _ => l

/-- Split a list at the last occurrence of `c`: `some (a, b)` with
`l = a ++ c :: b` and `c` not in `b`, or `none` when `c` does not occur. -/
def split_last (c : Char) : List Char → Option (List Char × List Char)
  | [] => none
  | x :: xs =>
    match split_last c xs with
    | some (a, b) => some (x :: a, b)
    | none => if x = c then some ([], xs) else none

/-- The params split of `urlparse` (`_splitparams`): cut the path at the first
`';'` of its last `'/'`-segment (or of the whole path when it has no `'/'`). -/
def split_params (l : List Char) : List Char :=
  match split_last '/' l with
  | some (a, b) => a ++ '/' :: b.takeWhile (fun c => c != ';')
  | none => l.takeWhile (fun c => c != ';')

/-- `urlparse(url).path`, as a character list: strip leading C0
controls/space, remove tab/CR/LF, strip the scheme, strip the netloc, cut the
fragment, cut the query, then apply the params split. -/
def url_path_data (l : List Char) : List Char :=
  split_params
    (((split_netloc
          (split_scheme ((l.dropWhile c0_or_space).filter (fun c => !url_removed_char c)))).takeWhile
        (fun c => c != '#')).takeWhile
      (fun c => c != '?'))

/-- `urlparse(storage_url).path.lstrip('/')`: the object key the storage
service addresses for a given storage URL (delete and presign both use it). -/
def key_from_url (url : String) : String :=
  ⟨(url_path_data url.data).dropWhile (fun c => c == '/')⟩

/-! ### Data model (`models/content.py`, `schemas/content.py`)

A `Content` row.  `created_at` / `updated_at` are server-managed timestamps
outside the claims and are not modelled.  Columns other than `id` and
`content_type` are nullable at the ORM-object level (Python can assign `None`
to any attribute; only `storage_url` and `thumbnail_url` are nullable in the
schema), so they are modelled as `Option` to represent exactly what the code
writes. -/
structure ContentRecord where
  id : String
  title : Option String
  description : Option String
  content_type : ContentType
  duration : Option Int
  thumbnail_url : Option String
  storage_url : Option String
  deriving DecidableEq, Repr

/-- `schemas.ContentCreate`: all creation fields are required except
`thumbnail_url`. -/
structure ContentCreate where
  title : String
  description : String
  content_type : ContentType
  duration : Int
  thumbnail_url : Option String
  deriving DecidableEq, Repr

/-- The four updatable fields of `schemas.ContentUpdate`. -/
inductive UField where
  | title
  | description
  | duration
  | thumbnail_url
  deriving DecidableEq, Repr

/-- `schemas.ContentUpdate` together with its pydantic fields-set record:
`fields_set` lists the fields explicitly passed to the constructor, which is
what `dict(exclude_unset=True)` keeps. -/
structure ContentUpdate where
  title : Option String
  description : Option String
  duration : Option Int
  thumbnail_url : Option String
  fields_set : List UField
  deriving DecidableEq, Repr

/-- `routes/content_routes.py` lines 95-100: the PUT route constructs
`ContentUpdate(title=title, description=description, duration=duration,
thumbnail_url=thumbnail_url)` with every keyword argument passed explicitly
(each defaulting to `None` when the form field is absent), so pydantic marks
all four fields as set. -/
def route_content_update (title description : Option String) (duration : Option Int)
    (thumbnail_url : Option String) : ContentUpdate :=
  { title := title, description := description, duration := duration,
    thumbnail_url := thumbnail_url,
    fields_set := [.title, .description, .duration, .thumbnail_url] }

/-- One `setattr(db_content, key, value)` step of
`ContentService.update_content` (content_service.py lines 102-103). -/
def set_field (r : ContentRecord) (f : UField) (u : ContentUpdate) : ContentRecord :=
  match f with
  | .title => { r with title := u.title }
  | .description => { r with description := u.description }
  | .duration => { r with duration := u.duration }
  | .thumbnail_url => { r with thumbnail_url := u.thumbnail_url }

/-- `ContentService.update_content` (content_service.py lines 90-106) applied
to the `update_data` dict built by the controller: the entries of
`fields_set` (this is `content_update.dict(exclude_unset=True)`), plus the
`storage_url` entry the controller adds when a file was uploaded. -/
def ContentService.update_content (db_content : ContentRecord) (u : ContentUpdate)
    (storage : Option String) : ContentRecord :=
  let r := u.fields_set.foldl (fun r f => set_field r f u) db_content
  match storage with
  | some url => { r with storage_url := some url }
  | none => r

/-! ### System state

The database is the list of persisted rows; the object store is the list of
keys holding a blob.  Fallible store calls take oracles for their outcome. -/
structure SysState where
  db : List ContentRecord
  blobs : List String
  deriving DecidableEq, Repr

/-- The empty initial state. -/
def init : SysState := { db := [], blobs := [] }

/-- `db.query(Content).filter(Content.id == content_id).first()`
(content_service.py line 71). -/
def ContentService.get_content (db : List ContentRecord) (content_id : String) :
    Option ContentRecord :=
  db.find? (fun r => r.id == content_id)

/-- The ORM mutation of the fetched row: the row with this primary key is
replaced (primary keys are unique in the database). -/
def replace_record (db : List ContentRecord) (content_id : String) (r : ContentRecord) :
    List ContentRecord :=
  db.map (fun x => if x.id == content_id then r else x)

/-- `s3_client.delete_object(Bucket=..., Key=key)`: the key no longer holds a
blob afterward (S3 deletion is by exact key). -/
def delete_key (blobs : List String) (key : String) : List String :=
  blobs.filter (fun b => b != key)

/-- Outcome of `ContentController.create_content`, with its HTTP status. -/
inductive CreateResult where
  | validationError
  | uploadError
  | created (r : ContentRecord)
  deriving DecidableEq, Repr

/-- HTTP status of a create outcome (controller lines 50-51, 61, route 200). -/
def CreateResult.status : CreateResult → Nat
  | .validationError => 400
  | .uploadError => 500
  | .created _ => 200

/-- `ContentController.create_content` (content_controllers.py lines 28-65).
`content_id` stands for the generated `uuid.uuid4()`; `uploadOk` is the
outcome of the S3 upload (a `false` outcome is the `S3UploadException` path,
re-raised as HTTP 500; a failed put writes no blob). -/
def ContentController.create_content (S : Settings) (st : SysState) (content : ContentCreate)
    (file : UploadFile) (content_id : String) (uploadOk : Bool) : SysState × CreateResult :=
  if ContentService.validate_file_type file content.content_type.value = false then
    (st, .validationError)
  else if uploadOk = false then
    (st, .uploadError)
  else
    let storage_url := StorageService.upload_url S file content.content_type content_id
    let key := StorageService.unique_filename file content.content_type content_id
    let r : ContentRecord :=
      { id := content_id, title := some content.title,
        description := some content.description, content_type := content.content_type,
        duration := some content.duration, thumbnail_url := content.thumbnail_url,
        storage_url := some storage_url }
    ({ db := st.db ++ [r], blobs := key :: st.blobs }, .created r)

/-- Outcome of `ContentController.update_content`, with its HTTP status. -/
inductive UpdateResult where
  | notFound
  | validationError
  | uploadError
  | updated (r : ContentRecord)
  deriving DecidableEq, Repr

/-- HTTP status of an update outcome (controller lines 122, 128-129, 143). -/
def UpdateResult.status : UpdateResult → Nat
  | .notFound => 404
  | .validationError => 400
  | .uploadError => 500
  | .updated _ => 200

/-- `ContentController.update_content` (content_controllers.py lines 98-148).
`uploadOk` is the outcome of the replacement-file upload; `deleteOldOk` the
outcome of the best-effort old-blob deletion, whose failure is caught by the
inner `except Exception` and only logged.  A record fetched from the database
with a `None` storage URL makes `delete_file` raise inside the inner `try`,
which is likewise swallowed. -/
def ContentController.update_content (S : Settings) (st : SysState) (content_id : String)
    (content_update : ContentUpdate) (file : Option UploadFile)
    (uploadOk : Bool) (deleteOldOk : Bool) : SysState × UpdateResult :=
  match ContentService.get_content st.db content_id with
  | none => (st, .notFound)
  | some db_content =>
    match file with
    | none =>
      let r := ContentService.update_content db_content content_update none
      ({ st with db := replace_record st.db content_id r }, .updated r)
    | some f =>
      if ContentService.validate_file_type f db_content.content_type.value = false then
        (st, .validationError)
      else if uploadOk = false then
        (st, .uploadError)
      else
        let new_storage_url := StorageService.upload_url S f db_content.content_type db_content.id
        let new_key := StorageService.unique_filename f db_content.content_type db_content.id
        let blobs1 := new_key :: st.blobs
        let blobs2 :=
          if some new_storage_url ≠ db_content.storage_url then
            match db_content.storage_url with
            | some old_url =>
              if deleteOldOk then delete_key blobs1 (key_from_url old_url) else blobs1
            | none => blobs1
          else blobs1
        let r := ContentService.update_content db_content content_update (some new_storage_url)
        ({ db := replace_record st.db content_id r, blobs := blobs2 }, .updated r)

/-- Outcome of `ContentController.delete_content`, with its HTTP status. -/
inductive DeleteResult where
  | notFound
  | deleteError
  | deleted
  deriving DecidableEq, Repr

/-- HTTP status of a delete outcome: the `S3UploadException` raised by
`delete_file` is not caught in the controller or route and surfaces as a
server error. -/
def DeleteResult.status : DeleteResult → Nat
  | .notFound => 404
  | .deleteError => 500
  | .deleted => 200

/-- `ContentController.delete_content` (content_controllers.py lines 150-174).
`deleteOk` is the outcome of `delete_object`; on failure `delete_file` raises
`S3UploadException`, which propagates, leaving both stores untouched.  A
`None` storage URL would make `urlparse` raise, likewise surfacing with the
row intact. -/
def ContentController.delete_content (st : SysState) (content_id : String)
    (deleteOk : Bool) : SysState × DeleteResult :=
  match ContentService.get_content st.db content_id with
  | none => (st, .notFound)
  | some db_content =>
    match db_content.storage_url with
    | none => (st, .deleteError)
    | some url =>
      if deleteOk then
        ({ db := st.db.filter (fun x => x.id != content_id),
           blobs := delete_key st.blobs (key_from_url url) }, .deleted)
      else (st, .deleteError)

/-- `StorageService.generate_presigned_url` (storage_service.py lines 93-120):
derive the key from the storage URL, ask the client for a presigned URL
(`s3resp`, the outcome of that call keyed by object key), and map a
`ClientError` to `none` instead of raising. -/
def StorageService.generate_presigned_url (s3resp : String → Except Unit String)
    (storage_url : String) : Option String :=
  match s3resp (key_from_url storage_url) with
  | .error _ => none
  | .ok u => some u

/-- Outcome of `ContentController.stream_content`. -/
inductive StreamResult where
  | notFound
  | urlFailed
  | internalFault
  | redirect (url : String)
  deriving DecidableEq, Repr

/-- HTTP status of a stream outcome (controller lines 195, 199; the route
wraps a success in a `RedirectResponse`, 307 by default). -/
def StreamResult.status : StreamResult → Nat
  | .notFound => 404
  | .urlFailed => 500
  | .internalFault => 500
  | .redirect _ => 307

/-- The `detail` string attached to a stream error (controller lines 195,
199); `internalFault` is an unhandled exception with no detail. -/
def StreamResult.detail : StreamResult → String
  | .notFound => "Content not found"
  | .urlFailed => "Unable to generate presigned URL for streaming."
  | .internalFault => ""
  | .redirect _ => ""

/-- `ContentController.stream_content` (content_controllers.py lines 176-201):
404 when the record is missing, 500 with a dedicated detail when the presign
capability returns `None`, otherwise the presigned URL (the redirect target).
A `None` storage URL would make `urlparse` raise before the `try`, an
unhandled fault.  No state is touched. -/
def ContentController.stream_content (st : SysState) (content_id : String)
    (s3resp : String → Except Unit String) : StreamResult :=
  match ContentService.get_content st.db content_id with
  | none => .notFound
  | some db_content =>
    match db_content.storage_url with
    | none => .internalFault
    | some url =>
      match StorageService.generate_presigned_url s3resp url with
      | none => .urlFailed
      | some presigned => .redirect presigned

/-! ### Well-formedness of identifiers, extensions and host names

`str(uuid.uuid4())` is hexadecimal digits and hyphens, so identifiers never
contain a dot, slash, or any character URL parsing treats specially.  AWS
bucket names and region names never contain `'/'`, `'?'`, `'#'` or control
characters.  Extensions, by contrast, are taken verbatim from the client
filename and can contain anything. -/

/-- Characters that may appear in a generated content identifier. -/
def id_ok_char (c : Char) : Bool :=
  !(c == '.' || c == '/' || c == '?' || c == '#' || c == ';' ||
    c == '\t' || c == '\n' || c == '\r')

/-- The identifier contains no dot, slash, or URL-special character;
satisfied by every `str(uuid.uuid4())`. -/
def IdOk (s : String) : Prop := ∀ c ∈ s.data, id_ok_char c = true

instance (s : String) : Decidable (IdOk s) := List.decidableBAll _ s.data

/-- Characters of an extension that URL parsing passes through unchanged. -/
def ext_ok_char (c : Char) : Bool :=
  !(c == '?' || c == '#' || c == ';' || c == '\t' || c == '\n' || c == '\r')

/-- The extension contains no character that URL parsing strips or treats as
a query, fragment or params delimiter (dots and slashes are allowed). -/
def ExtOk (s : String) : Prop := ∀ c ∈ s.data, ext_ok_char c = true

instance (s : String) : Decidable (ExtOk s) := List.decidableBAll _ s.data

/-- Characters allowed in the bucket or region component of the host. -/
def host_ok_char (c : Char) : Bool :=
  !(c == '/' || c == '?' || c == '#' || c == '\t' || c == '\n' || c == '\r')

/-- The bucket and region contain no authority delimiter or stripped
character; satisfied by every AWS bucket and region name. -/
def HostOk (S : Settings) : Prop :=
  (∀ c ∈ S.STORAGE_BUCKET.data, host_ok_char c = true) ∧
    (∀ c ∈ S.AWS_REGION.data, host_ok_char c = true)

instance (S : Settings) : Decidable (HostOk S) :=
  @instDecidableAnd _ _ (List.decidableBAll _ _) (List.decidableBAll _ _)

/-! ### Reachable states

`Reach0` is the transition system exactly as the claims quantify it: any
sequence of create, update (with or without file), delete, and stream
operations from the empty state, with any oracle outcomes.  Create carries
the guarantees of `uuid.uuid4()`: a fresh identifier made of hexadecimal
digits and hyphens.  Stream touches no state (its model returns only a
result), so it contributes no transition.

`Reach` restricts `Reach0` to runs in which every uploaded file has a
well-behaved derived extension (`ExtOk`); the storage-consistency invariant
holds on `Reach` but not on `Reach0`. -/

inductive Reach0 (S : Settings) : SysState → Prop where
  | init : Reach0 S init
  | create (st : SysState) (c : ContentCreate) (f : UploadFile) (cid : String) (b : Bool) :
      Reach0 S st → IdOk cid → (∀ r ∈ st.db, r.id ≠ cid) →
      Reach0 S (ContentController.create_content S st c f cid b).1
  | update (st : SysState) (cid : String) (u : ContentUpdate) (f : Option UploadFile)
      (b1 b2 : Bool) :
      Reach0 S st → Reach0 S (ContentController.update_content S st cid u f b1 b2).1
  | delete (st : SysState) (cid : String) (b : Bool) :
      Reach0 S st → Reach0 S (ContentController.delete_content st cid b).1

inductive Reach (S : Settings) : SysState → Prop where
  | init : Reach S init
  | create (st : SysState) (c : ContentCreate) (f : UploadFile) (cid : String) (b : Bool) :
      Reach S st → IdOk cid → (∀ r ∈ st.db, r.id ≠ cid) →
      ExtOk (file_extension f.filename) →
      Reach S (ContentController.create_content S st c f cid b).1
  | update (st : SysState) (cid : String) (u : ContentUpdate) (f : Option UploadFile)
      (b1 b2 : Bool) :
      Reach S st → (∀ g ∈ f, ExtOk (file_extension g.filename)) →
      Reach S (ContentController.update_content S st cid u f b1 b2).1
  | delete (st : SysState) (cid : String) (b : Bool) :
      Reach S st → Reach S (ContentController.delete_content st cid b).1

/-- The storage-consistency invariant of the spec: every persisted record
carries a storage URL, and that URL is the URL of a key that holds a blob in
the object store. -/
def Inv (S : Settings) (st : SysState) : Prop :=
  ∀ r ∈ st.db, ∃ k ∈ st.blobs, r.storage_url = some (url_of_key S k)

instance (S : Settings) (st : SysState) : Decidable (Inv S st) :=
  List.decidableBAll _ st.db

/-! ### List helpers for the URL parsing proofs -/

theorem takeWhile_of_all {p : Char → Bool} {a : List Char} (h : ∀ c ∈ a, p c = true) :
    a.takeWhile p = a := by
  induction a with
  | nil => rfl
  | cons x xs ih =>
    rw [List.takeWhile_cons, h x (by simp), ih (fun c hc => h c (by simp [hc]))]
    simp

theorem dropWhile_append_of_all {p : Char → Bool} {a : List Char} (b : List Char)
    (h : ∀ c ∈ a, p c = true) : (a ++ b).dropWhile p = b.dropWhile p := by
  induction a with
  | nil => rfl
  | cons x xs ih =>
    rw [List.cons_append, List.dropWhile_cons, h x (by simp)]
    exact ih (fun c hc => h c (by simp [hc]))

theorem dropWhile_of_head_false {p : Char → Bool} {a : List Char}
    (h : ∀ c, a.head? = some c → p c = false) : a.dropWhile p = a := by
  cases a with
  | nil => rfl
  | cons x xs =>
    rw [List.dropWhile_cons, h x rfl]
    simp

theorem split_last_eq_none_iff {c : Char} {l : List Char} : split_last c l = none ↔ c ∉ l := by
  induction l with
  | nil => simp [split_last]
  | cons x xs ih =>
    rw [split_last]
    cases hx : split_last c xs with
    | some p => simp [← ih, hx]
    | none =>
      have hcx : c ∉ xs := ih.mp hx
      by_cases hxc : x = c
      · simp [hxc]
      · simp [hxc, Ne.symm hxc, hcx]

theorem split_last_some {c : Char} {l a b : List Char} (h : split_last c l = some (a, b)) :
    l = a ++ c :: b ∧ c ∉ b := by
  induction l generalizing a b with
  | nil => simp [split_last] at h
  | cons x xs ih =>
    rw [split_last] at h
    cases hx : split_last c xs with
    | some p =>
      rw [hx] at h
      obtain ⟨a', b'⟩ := p
      simp at h
      obtain ⟨ha, hb⟩ := h
      obtain ⟨h1, h2⟩ := ih hx
      subst ha hb
      exact ⟨by simp [h1], h2⟩
    | none =>
      rw [hx] at h
      by_cases hxc : x = c
      · simp [hxc] at h
        obtain ⟨ha, hb⟩ := h
        subst ha
        subst hb
        simp [hxc, split_last_eq_none_iff.mp hx]
      · simp [hxc] at h

/-! ### Evaluating the URL parse on well-formed storage URLs -/

theorem split_scheme_https (rest : List Char) :
    split_scheme ('h' :: 't' :: 't' :: 'p' :: 's' :: ':' :: rest) = rest := by
  have h1 : List.takeWhile (fun c => c != ':') ('h' :: 't' :: 't' :: 'p' :: 's' :: ':' :: rest)
      = ['h', 't', 't', 'p', 's'] := by
    simp [List.takeWhile]
  unfold split_scheme
  simp only [h1]
  rw [if_pos]
  rotate_left
  · exact ⟨by simp, by simp, by decide, by simp⟩
  · simp [List.drop]

theorem split_netloc_host {host : List Char} (k : List Char)
    (h : ∀ c ∈ host, host_ok_char c = true) :
    split_netloc ('/' :: '/' :: (host ++ '/' :: k)) = '/' :: k := by
  show (host ++ '/' :: k).dropWhile (fun c => !(c == '/' || c == '?' || c == '#')) = '/' :: k
  rw [dropWhile_append_of_all _ (fun c hc => ?_)]
  · rw [List.dropWhile_cons]
    simp
  · have := h c hc
    simp [host_ok_char] at this
    simp [this.1]

theorem split_params_of_no_semicolon {l : List Char} (h : (';' : Char) ∉ l) :
    split_params l = l := by
  rw [split_params]
  cases hs : split_last '/' l with
  | none =>
    exact takeWhile_of_all (fun c hc => by
      simp only [bne_iff_ne, ne_eq, decide_eq_true_eq]
      exact fun hc2 => h (hc2 ▸ hc))
  | some p =>
    obtain ⟨a, b⟩ := p
    show a ++ '/' :: b.takeWhile (fun c => c != ';') = l
    obtain ⟨h1, -⟩ := split_last_some hs
    have hb : (';' : Char) ∉ b := fun hc => h (by rw [h1]; simp [hc])
    rw [takeWhile_of_all (fun c hc => by
      simp only [bne_iff_ne, ne_eq, decide_eq_true_eq]
      exact fun hc2 => hb (hc2 ▸ hc))]
    exact h1.symm

/-- The host part of a storage URL, as characters. -/
def host_data (S : Settings) : List Char :=
  S.STORAGE_BUCKET.data ++ String.data ".s3." ++ S.AWS_REGION.data ++ String.data ".amazonaws.com"

theorem url_of_key_data (S : Settings) (k : String) :
    (url_of_key S k).data =
      'h' :: 't' :: 't' :: 'p' :: 's' :: ':' :: '/' :: '/' :: (host_data S ++ '/' :: k.data) := by
  simp [url_of_key, host_data, String.data_append, List.append_assoc]

theorem host_data_ok {S : Settings} (hS : HostOk S) :
    ∀ c ∈ host_data S, host_ok_char c = true := by
  intro c hc
  simp only [host_data, List.mem_append] at hc
  have hs3 : ∀ c ∈ String.data ".s3.", host_ok_char c = true := by decide
  have ham : ∀ c ∈ String.data ".amazonaws.com", host_ok_char c = true := by decide
  rcases hc with ((h | h) | h) | h
  · exact hS.1 c h
  · exact hs3 c h
  · exact hS.2 c h
  · exact ham c h

theorem host_ok_char_iff {c : Char} :
    host_ok_char c = true ↔ (c == '/') = false ∧ (c == '?') = false ∧ (c == '#') = false ∧
      (c == '\t') = false ∧ (c == '\n') = false ∧ (c == '\r') = false := by
  unfold host_ok_char
  rw [Bool.not_eq_true']
  simp only [Bool.or_eq_false_iff]
  tauto

theorem ext_ok_char_iff {c : Char} :
    ext_ok_char c = true ↔ (c == '?') = false ∧ (c == '#') = false ∧ (c == ';') = false ∧
      (c == '\t') = false ∧ (c == '\n') = false ∧ (c == '\r') = false := by
  unfold ext_ok_char
  rw [Bool.not_eq_true']
  simp only [Bool.or_eq_false_iff]
  tauto

theorem host_ok_char_not_removed {c : Char} (h : host_ok_char c = true) :
    url_removed_char c = false := by
  obtain ⟨-, -, -, h4, h5, h6⟩ := host_ok_char_iff.mp h
  simp [url_removed_char, h4, h5, h6]

theorem ext_ok_char_not_removed {c : Char} (h : ext_ok_char c = true) :
    url_removed_char c = false := by
  obtain ⟨-, -, -, h4, h5, h6⟩ := ext_ok_char_iff.mp h
  simp [url_removed_char, h4, h5, h6]

/-- Strip the single leading slash of a path whose remainder does not start
with a slash. -/
theorem dropWhile_slash_cons (k : List Char) (h : ∀ c, k.head? = some c → c ≠ '/') :
    List.dropWhile (fun c => c == '/') ('/' :: k) = k := by
  rw [List.dropWhile_cons]
  simp only [beq_self_eq_true, if_true]
  apply dropWhile_of_head_false
  intro c hc
  simp [h c hc]

/-- Evaluation of the whole `urlparse(...).path` pipeline on a well-formed
storage URL. -/
theorem url_path_data_storage {S : Settings} (hS : HostOk S) {kd : List Char}
    (hk : ∀ c ∈ kd, ext_ok_char c = true) :
    url_path_data ('h' :: 't' :: 't' :: 'p' :: 's' :: ':' :: '/' :: '/' ::
      (host_data S ++ '/' :: kd)) = '/' :: kd := by
  unfold url_path_data
  have h0 : ('h' :: 't' :: 't' :: 'p' :: 's' :: ':' :: '/' :: '/' ::
      (host_data S ++ '/' :: kd)).dropWhile c0_or_space =
      'h' :: 't' :: 't' :: 'p' :: 's' :: ':' :: '/' :: '/' :: (host_data S ++ '/' :: kd) := by
    rw [List.dropWhile_cons]
    simp [c0_or_space]
  rw [h0]
  have h1 : ('h' :: 't' :: 't' :: 'p' :: 's' :: ':' :: '/' :: '/' ::
      (host_data S ++ '/' :: kd)).filter (fun c => !url_removed_char c) =
      'h' :: 't' :: 't' :: 'p' :: 's' :: ':' :: '/' :: '/' :: (host_data S ++ '/' :: kd) := by
    apply List.filter_eq_self.mpr
    intro c hc
    simp only [List.mem_cons] at hc
    rcases hc with h | h | h | h | h | h | h | h | hc
    · subst h; decide
    · subst h; decide
    · subst h; decide
    · subst h; decide
    · subst h; decide
    · subst h; decide
    · subst h; decide
    · subst h; decide
    · rcases List.mem_append.mp hc with h | h
      · simp [host_ok_char_not_removed (host_data_ok hS c h)]
      · rcases List.mem_cons.mp h with h | h
        · subst h; decide
        · simp [ext_ok_char_not_removed (hk c h)]
  rw [h1, split_scheme_https, split_netloc_host _ (host_data_ok hS)]
  have hhash : List.takeWhile (fun c => c != '#') ('/' :: kd) = '/' :: kd := by
    apply takeWhile_of_all
    intro c hc
    rcases List.mem_cons.mp hc with h | h
    · subst h; decide
    · obtain ⟨-, h2, -⟩ := ext_ok_char_iff.mp (hk c h)
      simp [bne, h2]
  have hq : List.takeWhile (fun c => c != '?') ('/' :: kd) = '/' :: kd := by
    apply takeWhile_of_all
    intro c hc
    rcases List.mem_cons.mp hc with h | h
    · subst h; decide
    · obtain ⟨h2, -⟩ := ext_ok_char_iff.mp (hk c h)
      simp [bne, h2]
  rw [hhash, hq]
  apply split_params_of_no_semicolon
  intro hc
  rcases List.mem_cons.mp hc with h | h
  · exact absurd h.symm (by decide)
  · obtain ⟨-, -, h3, -⟩ := ext_ok_char_iff.mp (hk _ h)
    simp at h3

/-- Central parsing fact: for a well-formed bucket/region and a key containing
no character that URL parsing strips or splits on, parsing the storage URL and
stripping the leading slash recovers exactly the key. -/
theorem key_from_url_url_of_key {S : Settings} (hS : HostOk S) {k : String}
    (hk : ExtOk k) (hhead : ∀ c, k.data.head? = some c → c ≠ '/') :
    key_from_url (url_of_key S k) = k := by
  apply String.ext
  unfold key_from_url
  rw [url_of_key_data, url_path_data_storage hS hk, dropWhile_slash_cons k.data hhead]

/-! ### Structure of object-store keys

Every key ever written has the shape `<ct>/<id>.<ext>` with `<id>` a UUID
string.  Because a UUID string contains neither `'.'` nor `'/'`, the identifier
embedded in a key is recoverable, which makes keys of distinct records
distinct. -/

/-- The shape of every object-store key: `<content type>/<id>.<ext>`. -/
def mk_key (ct : ContentType) (content_id ext : String) : String :=
  ct.value ++ "/" ++ content_id ++ "." ++ ext

theorem unique_filename_eq_mk_key (f : UploadFile) (ct : ContentType) (cid : String) :
    StorageService.unique_filename f ct cid = mk_key ct cid (file_extension f.filename) := rfl

theorem mk_key_data (ct : ContentType) (cid e : String) :
    (mk_key ct cid e).data = ct.value.data ++ '/' :: (cid.data ++ '.' :: e.data) := by
  simp [mk_key, String.data_append, List.append_assoc]

theorem id_ok_char_iff {c : Char} :
    id_ok_char c = true ↔ (c == '.') = false ∧ (c == '/') = false ∧ (c == '?') = false ∧
      (c == '#') = false ∧ (c == ';') = false ∧
      (c == '\t') = false ∧ (c == '\n') = false ∧ (c == '\r') = false := by
  unfold id_ok_char
  rw [Bool.not_eq_true']
  simp only [Bool.or_eq_false_iff]
  tauto

theorem id_ok_char_ext_ok {c : Char} (h : id_ok_char c = true) : ext_ok_char c = true := by
  obtain ⟨-, -, h3, h4, h5, h6, h7, h8⟩ := id_ok_char_iff.mp h
  exact ext_ok_char_iff.mpr ⟨h3, h4, h5, h6, h7, h8⟩

theorem id_ok_not_dot {cid : String} (h : IdOk cid) : ('.' : Char) ∉ cid.data := by
  intro hc
  obtain ⟨h1, -⟩ := id_ok_char_iff.mp (h '.' hc)
  simp at h1

/-- Keys are made of characters the URL parse leaves alone. -/
theorem mk_key_ext_ok {ct : ContentType} {cid e : String} (hid : IdOk cid) (he : ExtOk e) :
    ExtOk (mk_key ct cid e) := by
  intro c hc
  rw [mk_key_data] at hc
  rcases List.mem_append.mp hc with h | h
  · cases ct with
    | video =>
      have : ∀ c ∈ (ContentType.video.value).data, ext_ok_char c = true := by decide
      exact this c h
    | audio =>
      have : ∀ c ∈ (ContentType.audio.value).data, ext_ok_char c = true := by decide
      exact this c h
  · rcases List.mem_cons.mp h with h | h
    · subst h; decide
    · rcases List.mem_append.mp h with h | h
      · exact id_ok_char_ext_ok (hid c h)
      · rcases List.mem_cons.mp h with h | h
        · subst h; decide
        · exact he c h

/-- Keys never start with a slash. -/
theorem mk_key_head {ct : ContentType} {cid e : String} :
    ∀ c, (mk_key ct cid e).data.head? = some c → c ≠ '/' := by
  intro c hc
  rw [mk_key_data] at hc
  cases ct with
  | video => simp [ContentType.value] at hc; simp [← hc]
  | audio => simp [ContentType.value] at hc; simp [← hc]

/-- Cancellation around a distinguished separator absent from both prefixes. -/
theorem append_cons_inj {c : Char} {a x : List Char} :
    ∀ {b y : List Char}, a ++ c :: x = b ++ c :: y → c ∉ a → c ∉ b → a = b ∧ x = y := by
  induction a with
  | nil =>
    intro b y h ha hb
    cases b with
    | nil => simp_all
    | cons z zs =>
      simp at h
      obtain ⟨h1, -⟩ := h
      exact absurd (by simp [← h1]) hb
  | cons z zs ih =>
    intro b y h ha hb
    cases b with
    | nil =>
      simp at h
      obtain ⟨h1, -⟩ := h
      exact absurd (by simp [h1]) ha
    | cons w ws =>
      simp at h
      obtain ⟨h1, h2⟩ := h
      simp at ha hb
      obtain ⟨hza, hzs⟩ := ih h2 ha.2 hb.2
      exact ⟨by rw [h1, hza], hzs⟩

/-- The identifier component of a key determines it: two keys of the
canonical shape with identifiers free of dots and slashes agree on the
identifier as soon as they are equal. -/
theorem mk_key_inj_id {ct ct' : ContentType} {A B e e' : String}
    (hA : IdOk A) (hB : IdOk B) (h : mk_key ct A e = mk_key ct' B e') : A = B := by
  have hd := congrArg String.data h
  rw [mk_key_data, mk_key_data] at hd
  cases ct <;> cases ct' <;> simp only [ContentType.value] at hd <;> simp at hd
  all_goals {
    obtain ⟨ha, -⟩ := append_cons_inj hd (id_ok_not_dot hA) (id_ok_not_dot hB)
    exact String.ext ha
  }

/-- The storage URL determines the key. -/
theorem url_of_key_inj {S : Settings} {k1 k2 : String}
    (h : url_of_key S k1 = url_of_key S k2) : k1 = k2 := by
  have hd := congrArg String.data h
  rw [url_of_key_data, url_of_key_data] at hd
  simp at hd
  exact String.ext hd

/-! ### The strengthened invariant

`RecOk` strengthens the storage invariant per record: the record's storage URL
is the URL of a key of the canonical shape built from the record's own
identifier, that key holds a blob, the identifier is UUID-shaped and the
extension is URL-clean.  `AuxInv` adds primary-key uniqueness. -/

def RecOk (S : Settings) (blobs : List String) (r : ContentRecord) : Prop :=
  IdOk r.id ∧ ∃ e, ExtOk e ∧
    r.storage_url = some (url_of_key S (mk_key r.content_type r.id e)) ∧
    mk_key r.content_type r.id e ∈ blobs

def AuxInv (S : Settings) (st : SysState) : Prop :=
  (∀ r ∈ st.db, RecOk S st.blobs r) ∧ st.db.Pairwise (fun a b => a.id ≠ b.id)

theorem RecOk.mono {S : Settings} {blobs blobs' : List String} {r : ContentRecord}
    (hsub : ∀ k ∈ blobs, k ∈ blobs') (h : RecOk S blobs r) : RecOk S blobs' r := by
  obtain ⟨hid, e, he, hurl, hmem⟩ := h
  exact ⟨hid, e, he, hurl, hsub _ hmem⟩

theorem AuxInv.inv {S : Settings} {st : SysState} (h : AuxInv S st) : Inv S st := by
  intro r hr
  obtain ⟨-, e, -, hurl, hmem⟩ := h.1 r hr
  exact ⟨mk_key r.content_type r.id e, hmem, hurl⟩

theorem eq_of_mem_pairwise {l : List ContentRecord}
    (hp : l.Pairwise (fun a b => a.id ≠ b.id)) {a b : ContentRecord}
    (ha : a ∈ l) (hb : b ∈ l) (h : a.id = b.id) : a = b := by
  induction l with
  | nil => cases ha
  | cons x xs ih =>
    rw [List.pairwise_cons] at hp
    rcases List.mem_cons.mp ha with h1 | h1 <;> rcases List.mem_cons.mp hb with h2 | h2
    · rw [h1, h2]
    · exact absurd (h1 ▸ h) (hp.1 b h2)
    · exact absurd (h2 ▸ h).symm (hp.1 a h1)
    · exact ih hp.2 h1 h2

/-- `get_content` returns a member of the database whose id is the requested
one. -/
theorem get_content_spec {db : List ContentRecord} {cid : String} {r : ContentRecord}
    (h : ContentService.get_content db cid = some r) : r ∈ db ∧ r.id = cid := by
  refine ⟨List.mem_of_find?_eq_some h, ?_⟩
  have := List.find?_some h
  simpa using this

/-- Metadata application never touches id, content type or storage URL
(those are not fields of `ContentUpdate`). -/
theorem foldl_set_field_id (fs : List UField) (u : ContentUpdate) (r : ContentRecord) :
    ((fs.foldl (fun r f => set_field r f u) r).id = r.id ∧
      (fs.foldl (fun r f => set_field r f u) r).content_type = r.content_type) ∧
      (fs.foldl (fun r f => set_field r f u) r).storage_url = r.storage_url := by
  induction fs generalizing r with
  | nil => exact ⟨⟨rfl, rfl⟩, rfl⟩
  | cons f fs ih =>
    rw [List.foldl_cons]
    have := ih (set_field r f u)
    cases f <;> simpa [set_field] using this

theorem update_content_id (r : ContentRecord) (u : ContentUpdate) (storage : Option String) :
    (ContentService.update_content r u storage).id = r.id := by
  unfold ContentService.update_content
  cases storage <;> simp [(foldl_set_field_id u.fields_set u r).1.1]

theorem update_content_ct (r : ContentRecord) (u : ContentUpdate) (storage : Option String) :
    (ContentService.update_content r u storage).content_type = r.content_type := by
  unfold ContentService.update_content
  cases storage <;> simp [(foldl_set_field_id u.fields_set u r).1.2]

theorem update_content_storage_none (r : ContentRecord) (u : ContentUpdate) :
    (ContentService.update_content r u none).storage_url = r.storage_url := by
  unfold ContentService.update_content
  simp [(foldl_set_field_id u.fields_set u r).2]

theorem update_content_storage_some (r : ContentRecord) (u : ContentUpdate) (url : String) :
    (ContentService.update_content r u (some url)).storage_url = some url := by
  unfold ContentService.update_content
  simp

/-- Replacing the row with id `cid` by a row with the same id preserves the
pairwise distinctness of ids and maps members to members. -/
theorem replace_record_pairwise {db : List ContentRecord} {cid : String} {r : ContentRecord}
    (hid : r.id = cid) (hp : db.Pairwise (fun a b => a.id ≠ b.id)) :
    (replace_record db cid r).Pairwise (fun a b => a.id ≠ b.id) := by
  have hg : ∀ x : ContentRecord, (if x.id == cid then r else x).id = x.id := by
    intro x
    by_cases hx : x.id == cid
    · rw [if_pos hx, hid]
      exact (eq_of_beq hx).symm
    · rw [if_neg hx]
  unfold replace_record
  exact List.Pairwise.map _ (fun a b hab => by rw [hg a, hg b]; exact hab) hp

/-! ### Branch equations for the controller operations

One equation per control-flow branch of each controller function; the claim
theorems and the invariant preservation proofs are all phrased through them. -/

theorem create_content_invalid {S : Settings} {st : SysState} {c : ContentCreate}
    {f : UploadFile} (cid : String) (b : Bool)
    (hv : ContentService.validate_file_type f c.content_type.value = false) :
    ContentController.create_content S st c f cid b = (st, .validationError) := by
  unfold ContentController.create_content
  rw [if_pos hv]

theorem create_content_upload_failed {S : Settings} {st : SysState} {c : ContentCreate}
    {f : UploadFile} (cid : String)
    (hv : ContentService.validate_file_type f c.content_type.value = true) :
    ContentController.create_content S st c f cid false = (st, .uploadError) := by
  unfold ContentController.create_content
  rw [if_neg (by simp [hv]), if_pos rfl]

theorem create_content_success {S : Settings} {st : SysState} {c : ContentCreate}
    {f : UploadFile} (cid : String)
    (hv : ContentService.validate_file_type f c.content_type.value = true) :
    ContentController.create_content S st c f cid true =
      ({ db := st.db ++
          [{ id := cid, title := some c.title, description := some c.description,
             content_type := c.content_type, duration := some c.duration,
             thumbnail_url := c.thumbnail_url,
             storage_url :=
               some (StorageService.upload_url S f c.content_type cid) }],
         blobs := StorageService.unique_filename f c.content_type cid :: st.blobs },
       .created
         { id := cid, title := some c.title, description := some c.description,
           content_type := c.content_type, duration := some c.duration,
           thumbnail_url := c.thumbnail_url,
           storage_url := some (StorageService.upload_url S f c.content_type cid) }) := by
  unfold ContentController.create_content
  rw [if_neg (by simp [hv]), if_neg (by simp)]

theorem update_content_not_found {S : Settings} {st : SysState} {cid : String}
    {u : ContentUpdate} (f : Option UploadFile) (b1 b2 : Bool)
    (hfind : ContentService.get_content st.db cid = none) :
    ContentController.update_content S st cid u f b1 b2 = (st, .notFound) := by
  unfold ContentController.update_content
  rw [hfind]

theorem update_content_no_file {S : Settings} {st : SysState} {cid : String}
    {u : ContentUpdate} {db_content : ContentRecord} (b1 b2 : Bool)
    (hfind : ContentService.get_content st.db cid = some db_content) :
    ContentController.update_content S st cid u none b1 b2 =
      ({ st with db := replace_record st.db cid (ContentService.update_content db_content u none) },
       .updated (ContentService.update_content db_content u none)) := by
  unfold ContentController.update_content
  rw [hfind]

theorem update_content_invalid {S : Settings} {st : SysState} {cid : String}
    {u : ContentUpdate} {g : UploadFile} {db_content : ContentRecord} (b1 b2 : Bool)
    (hfind : ContentService.get_content st.db cid = some db_content)
    (hv : ContentService.validate_file_type g db_content.content_type.value = false) :
    ContentController.update_content S st cid u (some g) b1 b2 = (st, .validationError) := by
  unfold ContentController.update_content
  rw [hfind]
  simp only [hv]
  rfl

theorem update_content_upload_failed {S : Settings} {st : SysState} {cid : String}
    {u : ContentUpdate} {g : UploadFile} {db_content : ContentRecord} (b2 : Bool)
    (hfind : ContentService.get_content st.db cid = some db_content)
    (hv : ContentService.validate_file_type g db_content.content_type.value = true) :
    ContentController.update_content S st cid u (some g) false b2 = (st, .uploadError) := by
  unfold ContentController.update_content
  rw [hfind]
  simp only [hv]
  rfl

theorem update_content_success_eq {S : Settings} {st : SysState} {cid : String}
    {u : ContentUpdate} {g : UploadFile} {db_content : ContentRecord} (b2 : Bool)
    (hfind : ContentService.get_content st.db cid = some db_content)
    (hv : ContentService.validate_file_type g db_content.content_type.value = true) :
    ContentController.update_content S st cid u (some g) true b2 =
      ({ db := replace_record st.db cid
            (ContentService.update_content db_content u
              (some (StorageService.upload_url S g db_content.content_type db_content.id))),
         blobs :=
           if some (StorageService.upload_url S g db_content.content_type db_content.id) ≠
               db_content.storage_url then
             match db_content.storage_url with
             | some old_url =>
               if b2 then
                 delete_key
                   (StorageService.unique_filename g db_content.content_type db_content.id ::
                     st.blobs) (key_from_url old_url)
               else
                 StorageService.unique_filename g db_content.content_type db_content.id ::
                   st.blobs
             | none =>
               StorageService.unique_filename g db_content.content_type db_content.id :: st.blobs
           else
             StorageService.unique_filename g db_content.content_type db_content.id ::
               st.blobs },
       .updated
         (ContentService.update_content db_content u
           (some (StorageService.upload_url S g db_content.content_type db_content.id)))) := by
  unfold ContentController.update_content
  rw [hfind]
  simp only [hv]
  rfl

theorem delete_content_not_found {st : SysState} {cid : String} (b : Bool)
    (hfind : ContentService.get_content st.db cid = none) :
    ContentController.delete_content st cid b = (st, .notFound) := by
  unfold ContentController.delete_content
  rw [hfind]

theorem delete_content_blob_error {st : SysState} {cid : String} {db_content : ContentRecord}
    {url : String} (hfind : ContentService.get_content st.db cid = some db_content)
    (hurl : db_content.storage_url = some url) :
    ContentController.delete_content st cid false = (st, .deleteError) := by
  unfold ContentController.delete_content
  rw [hfind]
  simp only [hurl]
  rfl

theorem delete_content_success {st : SysState} {cid : String} {db_content : ContentRecord}
    {url : String} (hfind : ContentService.get_content st.db cid = some db_content)
    (hurl : db_content.storage_url = some url) :
    ContentController.delete_content st cid true =
      ({ db := st.db.filter (fun x => x.id != cid),
         blobs := delete_key st.blobs (key_from_url url) }, .deleted) := by
  unfold ContentController.delete_content
  rw [hfind]
  simp only [hurl]
  rfl

/-- Create preserves the strengthened invariant. -/
theorem AuxInv_create {S : Settings} {st : SysState} (c : ContentCreate) (f : UploadFile)
    {cid : String} (b : Bool) (h : AuxInv S st) (hid : IdOk cid)
    (hfresh : ∀ r ∈ st.db, r.id ≠ cid) (hext : ExtOk (file_extension f.filename)) :
    AuxInv S (ContentController.create_content S st c f cid b).1 := by
  cases hv : ContentService.validate_file_type f c.content_type.value with
  | false => rw [create_content_invalid cid b hv]; exact h
  | true =>
    cases b with
    | false => rw [create_content_upload_failed cid hv]; exact h
    | true =>
      rw [create_content_success cid hv]
      constructor
      · intro r hr
        rcases List.mem_append.mp hr with hr | hr
        · exact (h.1 r hr).mono (fun k hk => List.mem_cons_of_mem _ hk)
        · rcases List.mem_singleton.mp hr with rfl
          refine ⟨hid, file_extension f.filename, hext, rfl, ?_⟩
          rw [← unique_filename_eq_mk_key]
          exact List.mem_cons_self _ _
      · rw [List.pairwise_append]
        refine ⟨h.2, List.pairwise_singleton _ _, ?_⟩
        intro a ha b hb
        rcases List.mem_singleton.mp hb with rfl
        exact hfresh a ha

/-- Update preserves the strengthened invariant. -/
theorem AuxInv_update {S : Settings} (hS : HostOk S) {st : SysState} {cid : String}
    (u : ContentUpdate) {f : Option UploadFile} (b1 b2 : Bool) (h : AuxInv S st)
    (hext : ∀ g ∈ f, ExtOk (file_extension g.filename)) :
    AuxInv S (ContentController.update_content S st cid u f b1 b2).1 := by
  cases hfind : ContentService.get_content st.db cid with
  | none => rw [update_content_not_found f b1 b2 hfind]; exact h
  | some db_content =>
    obtain ⟨hmem, hid_eq⟩ := get_content_spec hfind
    obtain ⟨hidok, e0, he0, hurl0, hkey0⟩ := h.1 db_content hmem
    cases f with
    | none =>
      rw [update_content_no_file b1 b2 hfind]
      constructor
      · intro r hr
        simp only [replace_record, List.mem_map] at hr
        obtain ⟨x, hx, hxr⟩ := hr
        by_cases hxc : x.id == cid
        · rw [if_pos hxc] at hxr
          subst hxr
          refine ⟨?_, e0, he0, ?_, ?_⟩
          · rw [update_content_id]
            exact hidok
          · rw [update_content_storage_none, update_content_id, update_content_ct]
            exact hurl0
          · rw [update_content_id, update_content_ct]
            exact hkey0
        · rw [if_neg hxc] at hxr
          subst hxr
          exact h.1 x hx
      · exact replace_record_pairwise (by rw [update_content_id]; exact hid_eq) h.2
    | some g =>
      have hge : ExtOk (file_extension g.filename) := hext g (by simp)
      cases hv : ContentService.validate_file_type g db_content.content_type.value with
      | false => rw [update_content_invalid b1 b2 hfind hv]; exact h
      | true =>
        cases b1 with
        | false => rw [update_content_upload_failed b2 hfind hv]; exact h
        | true =>
          rw [update_content_success_eq b2 hfind hv]
          rw [hurl0]
          have hold_key : key_from_url (url_of_key S (mk_key db_content.content_type
              db_content.id e0)) = mk_key db_content.content_type db_content.id e0 :=
            key_from_url_url_of_key hS (mk_key_ext_ok hidok he0) mk_key_head
          have hnk_mk : StorageService.unique_filename g db_content.content_type db_content.id =
              mk_key db_content.content_type db_content.id (file_extension g.filename) :=
            unique_filename_eq_mk_key g _ _
          -- the final blob list, in each branch, contains the new key and every
          -- key other than the replaced one
          have hblobs :
              ∀ blobs2 : List String,
                blobs2 = (if some (StorageService.upload_url S g db_content.content_type
                      db_content.id) ≠ some (url_of_key S (mk_key db_content.content_type
                      db_content.id e0)) then
                    (if b2 then
                      delete_key (StorageService.unique_filename g db_content.content_type
                        db_content.id :: st.blobs)
                        (key_from_url (url_of_key S (mk_key db_content.content_type
                          db_content.id e0)))
                    else StorageService.unique_filename g db_content.content_type
                      db_content.id :: st.blobs)
                  else StorageService.unique_filename g db_content.content_type
                    db_content.id :: st.blobs) →
                (StorageService.unique_filename g db_content.content_type db_content.id ∈ blobs2 ∧
                  ∀ k ∈ st.blobs, k ≠ mk_key db_content.content_type db_content.id e0 →
                    k ∈ blobs2) := by
            intro blobs2 hb2eq
            by_cases hne : some (StorageService.upload_url S g db_content.content_type
                db_content.id) ≠ some (url_of_key S (mk_key db_content.content_type
                db_content.id e0))
            · rw [if_pos hne] at hb2eq
              cases b2 with
              | false =>
                subst hb2eq
                rw [if_neg (by simp)]
                exact ⟨List.mem_cons_self _ _, fun k hk _ => List.mem_cons_of_mem _ hk⟩
              | true =>
                subst hb2eq
                rw [if_pos rfl, hold_key]
                have hkne : StorageService.unique_filename g db_content.content_type
                    db_content.id ≠ mk_key db_content.content_type db_content.id e0 := by
                  intro hk
                  apply hne
                  apply congrArg
                  show url_of_key S (StorageService.unique_filename g db_content.content_type
                    db_content.id) = _
                  rw [hk]
                constructor
                · simp only [delete_key, List.mem_filter]
                  exact ⟨List.mem_cons_self _ _, by simpa using hkne⟩
                · intro k hk hkne2
                  simp only [delete_key, List.mem_filter]
                  exact ⟨List.mem_cons_of_mem _ hk, by simpa using hkne2⟩
            · rw [if_neg hne] at hb2eq
              subst hb2eq
              exact ⟨List.mem_cons_self _ _, fun k hk _ => List.mem_cons_of_mem _ hk⟩
          obtain ⟨hnew_mem, hkeep⟩ := hblobs _ rfl
          constructor
          · intro r hr
            simp only [replace_record, List.mem_map] at hr
            obtain ⟨x, hx, hxr⟩ := hr
            by_cases hxc : x.id == cid
            · rw [if_pos hxc] at hxr
              subst hxr
              refine ⟨?_, file_extension g.filename, hge, ?_, ?_⟩
              · rw [update_content_id]
                exact hid_eq ▸ hidok
              · rw [update_content_storage_some, update_content_id, update_content_ct, ← hnk_mk]
                rfl
              · rw [update_content_id, update_content_ct, ← hnk_mk]
                exact hnew_mem
            · rw [if_neg hxc] at hxr
              subst hxr
              obtain ⟨hidx, ex, hex, hurlx, hkx⟩ := h.1 x hx
              refine ⟨hidx, ex, hex, hurlx, ?_⟩
              apply hkeep _ hkx
              intro hkeq
              have hxid : x.id = db_content.id := mk_key_inj_id hidx hidok hkeq
              exact hxc (by simp [hxid, hid_eq])
          · exact replace_record_pairwise (by rw [update_content_id]; exact hid_eq) h.2

/-- Delete preserves the strengthened invariant. -/
theorem AuxInv_delete {S : Settings} (hS : HostOk S) {st : SysState} {cid : String} (b : Bool)
    (h : AuxInv S st) : AuxInv S (ContentController.delete_content st cid b).1 := by
  cases hfind : ContentService.get_content st.db cid with
  | none => rw [delete_content_not_found b hfind]; exact h
  | some db_content =>
    obtain ⟨hmem, hid_eq⟩ := get_content_spec hfind
    obtain ⟨hidok, e0, he0, hurl0, hkey0⟩ := h.1 db_content hmem
    cases b with
    | false => rw [delete_content_blob_error hfind hurl0]; exact h
    | true =>
      rw [delete_content_success hfind hurl0]
      have hold_key : key_from_url (url_of_key S (mk_key db_content.content_type
          db_content.id e0)) = mk_key db_content.content_type db_content.id e0 :=
        key_from_url_url_of_key hS (mk_key_ext_ok hidok he0) mk_key_head
      constructor
      · intro r hr
        rw [List.mem_filter] at hr
        obtain ⟨hrdb, hrne⟩ := hr
        obtain ⟨hidx, ex, hex, hurlx, hkx⟩ := h.1 r hrdb
        refine ⟨hidx, ex, hex, hurlx, ?_⟩
        rw [hold_key]
        simp only [delete_key, List.mem_filter]
        refine ⟨hkx, ?_⟩
        simp only [bne_iff_ne, ne_eq]
        intro hkeq
        have : r.id = db_content.id := mk_key_inj_id hidx hidok hkeq
        simp [this, hid_eq] at hrne
      · exact List.Pairwise.filter _ h.2

/-- Every state reachable through well-extension runs satisfies the
strengthened invariant. -/
theorem Reach_AuxInv {S : Settings} {st : SysState} (hS : HostOk S) (h : Reach S st) :
    AuxInv S st := by
  induction h with
  | init => exact ⟨fun r hr => absurd hr (List.not_mem_nil r), List.Pairwise.nil⟩
  | create st c f cid b hr hid hfresh hext ih => exact AuxInv_create c f b ih hid hfresh hext
  | update st cid u f b1 b2 hr hext ih => exact AuxInv_update hS u b1 b2 ih hext
  | delete st cid b hr ih => exact AuxInv_delete hS b ih

/-! ### Concrete fixtures used by witnesses and counterexamples -/

/-- A concrete, well-formed configuration. -/
def S0 : Settings := { STORAGE_BUCKET := "bucket", AWS_REGION := "us-east-1" }

/-- A concrete creation payload. -/
def c0 : ContentCreate :=
  { title := "t", description := "d", content_type := .video, duration := 10,
    thumbnail_url := none }

/-- A video upload whose filename ends in a query-looking extension. -/
def f0 : UploadFile := { filename := "movie.mp4?x", mime_type := "video/mp4" }

/-- A plain video upload. -/
def f1 : UploadFile := { filename := "movie.mp4", mime_type := "video/mp4" }

/-- State after creating content `"0a1b"` from `f0`. -/
def st1 : SysState := (ContentController.create_content S0 init c0 f0 "0a1b" true).1

/-- State after then replacing the file of `"0a1b"` by `f1` (upload and
old-blob deletion both succeed). -/
def st2 : SysState :=
  (ContentController.update_content S0 st1 "0a1b"
    (route_content_update none none none none) (some f1) true true).1

/-- A persisted record and state used by delete/stream/update witnesses. -/
def recw3 : ContentRecord :=
  { id := "w3", title := some "t", description := some "d", content_type := .video,
    duration := some 5, thumbnail_url := none,
    storage_url := some (url_of_key S0 "video/w3.mp4") }

def stw3 : SysState := { db := [recw3], blobs := ["video/w3.mp4"] }

/-- C1, counterexample.  The claim quantifies over arbitrary operation
sequences.  Create with filename `"movie.mp4?x"`, then update with replacement
file `"movie.mp4"`: the old URL's parse truncates at `'?'` and addresses
exactly the newly uploaded key, so the best-effort cleanup deletes the new
blob and the persisted record ends up pointing at a missing blob. -/
theorem content_storage_invariant_cex : Reach0 S0 st2 ∧ ¬ Inv S0 st2 := by
  constructor
  · have h1 : Reach0 S0 st1 :=
      Reach0.create init c0 f0 "0a1b" true Reach0.init (by decide) (by decide)
    exact Reach0.update st1 "0a1b" (route_content_update none none none none)
      (some f1) true true h1
  · decide

/-- C1 (amended): for every state reachable by create / update / delete /
stream operations in which every uploaded file's derived extension is free of
the characters URL parsing strips or splits on (`'?'`, `'#'`, `';'`, tab, CR,
LF), and for AWS-well-formed bucket/region names, every persisted record
carries a storage URL that is the URL of a key holding a blob in the object
store. -/
theorem content_storage_invariant {S : Settings} (hS : HostOk S) {st : SysState}
    (h : Reach S st) : Inv S st :=
  (Reach_AuxInv hS h).inv

theorem content_storage_invariant_witness :
    HostOk S0 ∧ Inv S0 (ContentController.create_content S0 init c0 f1 "0a1b" true).1 :=
  ⟨by decide, content_storage_invariant (by decide)
    (Reach.create init c0 f1 "0a1b" true Reach.init (by decide) (by decide) (by decide))⟩

/-- C2: when the MIME validation passes and the blob upload fails, create
surfaces `UploadError` as HTTP 500 and leaves both stores untouched, and a
record is ever created only when the upload succeeded. -/
theorem create_upload_failure_no_record {S : Settings} {st : SysState} {c : ContentCreate}
    {f : UploadFile} (cid : String)
    (hv : ContentService.validate_file_type f c.content_type.value = true) :
    ContentController.create_content S st c f cid false = (st, .uploadError) ∧
    (ContentController.create_content S st c f cid false).2.status = 500 ∧
    ∀ (b : Bool) (st' : SysState) (r : ContentRecord),
      ContentController.create_content S st c f cid b = (st', .created r) → b = true := by
  refine ⟨create_content_upload_failed cid hv, ?_, ?_⟩
  · rw [create_content_upload_failed cid hv]
    rfl
  · intro b st' r h
    cases b with
    | false =>
      rw [create_content_upload_failed cid hv] at h
      simp at h
    | true => rfl

theorem create_upload_failure_no_record_witness :
    ContentService.validate_file_type f1 c0.content_type.value = true ∧
    (ContentController.create_content S0 init c0 f1 "w2" false = (init, .uploadError) ∧
      (ContentController.create_content S0 init c0 f1 "w2" false).2.status = 500 ∧
      ∀ (b : Bool) (st' : SysState) (r : ContentRecord),
        ContentController.create_content S0 init c0 f1 "w2" b = (st', .created r) →
          b = true) :=
  ⟨by decide, create_upload_failure_no_record "w2" (by decide)⟩

/-- C3: on delete of an existing id, a blob-deletion failure aborts the whole
request with the error surfaced (unhandled `S3UploadException`, a server
error) and both the row and the blob intact; on success both the blob and the
row are removed; and the row is ever removed only when blob deletion
succeeded. -/
theorem delete_blob_failure_aborts {st : SysState} {cid : String}
    {db_content : ContentRecord} {url : String}
    (hfind : ContentService.get_content st.db cid = some db_content)
    (hurl : db_content.storage_url = some url) :
    (ContentController.delete_content st cid false = (st, .deleteError) ∧
      DeleteResult.deleteError.status = 500) ∧
    ContentController.delete_content st cid true =
      ({ db := st.db.filter (fun x => x.id != cid),
         blobs := delete_key st.blobs (key_from_url url) }, .deleted) ∧
    ∀ (b : Bool), (ContentController.delete_content st cid b).1.db ≠ st.db → b = true := by
  refine ⟨⟨delete_content_blob_error hfind hurl, rfl⟩,
    delete_content_success hfind hurl, ?_⟩
  intro b hb
  cases b with
  | false =>
    rw [delete_content_blob_error hfind hurl] at hb
    exact absurd rfl hb
  | true => rfl

theorem delete_blob_failure_aborts_witness :
    ContentService.get_content stw3.db "w3" = some recw3 ∧
    recw3.storage_url = some (url_of_key S0 "video/w3.mp4") ∧
    ((ContentController.delete_content stw3 "w3" false = (stw3, .deleteError) ∧
        DeleteResult.deleteError.status = 500) ∧
      ContentController.delete_content stw3 "w3" true =
        ({ db := stw3.db.filter (fun x => x.id != "w3"),
           blobs := delete_key stw3.blobs (key_from_url (url_of_key S0 "video/w3.mp4")) },
         .deleted) ∧
      ∀ (b : Bool),
        (ContentController.delete_content stw3 "w3" b).1.db ≠ stw3.db → b = true) :=
  ⟨by decide, by decide,
    @delete_blob_failure_aborts stw3 "w3" recw3 (url_of_key S0 "video/w3.mp4")
      (by decide) (by decide)⟩

/-- The metadata payload a PUT with no form fields produces (route lines
95-100): every field explicitly `None`, all four marked as set. -/
def uw : ContentUpdate := route_content_update none none none none

/-- C4: an update with a replacement file whose upload fails surfaces HTTP 500
before any metadata is persisted: the whole state, and in particular the
record with its storage_url, is exactly the prior one. -/
theorem update_upload_failure_preserves_record {S : Settings} {st : SysState} {cid : String}
    {u : ContentUpdate} {g : UploadFile} {db_content : ContentRecord} (b2 : Bool)
    (hfind : ContentService.get_content st.db cid = some db_content)
    (hv : ContentService.validate_file_type g db_content.content_type.value = true) :
    ContentController.update_content S st cid u (some g) false b2 = (st, .uploadError) ∧
    UpdateResult.uploadError.status = 500 ∧
    ContentService.get_content
      (ContentController.update_content S st cid u (some g) false b2).1.db cid =
        some db_content := by
  refine ⟨update_content_upload_failed b2 hfind hv, rfl, ?_⟩
  rw [update_content_upload_failed b2 hfind hv]
  exact hfind

theorem update_upload_failure_preserves_record_witness :
    ContentService.get_content stw3.db "w3" = some recw3 ∧
    ContentService.validate_file_type f1 recw3.content_type.value = true ∧
    (ContentController.update_content S0 stw3 "w3" uw (some f1) false true =
        (stw3, .uploadError) ∧
      UpdateResult.uploadError.status = 500 ∧
      ContentService.get_content
        (ContentController.update_content S0 stw3 "w3" uw (some f1) false true).1.db "w3" =
          some recw3) :=
  ⟨by decide, by decide,
    @update_upload_failure_preserves_record S0 stw3 "w3" uw f1 recw3 true
      (by decide) (by decide)⟩

/-- C5: when the replacement upload succeeds, the old blob is deleted only
when the new storage reference differs from the old one (same reference: the
store only gains the overwritten key, nothing is deleted), and a failure of
the old-blob deletion is swallowed: the update still returns the updated
record and no error outcome. -/
theorem update_old_blob_cleanup {S : Settings} {st : SysState} {cid : String}
    {u : ContentUpdate} {g : UploadFile} {db_content : ContentRecord}
    (hfind : ContentService.get_content st.db cid = some db_content)
    (hv : ContentService.validate_file_type g db_content.content_type.value = true) :
    (∀ b2 : Bool,
      db_content.storage_url =
          some (StorageService.upload_url S g db_content.content_type db_content.id) →
        ContentController.update_content S st cid u (some g) true b2 =
          ({ db := replace_record st.db cid
                (ContentService.update_content db_content u
                  (some (StorageService.upload_url S g db_content.content_type db_content.id))),
             blobs := StorageService.unique_filename g db_content.content_type db_content.id ::
               st.blobs },
           .updated (ContentService.update_content db_content u
             (some (StorageService.upload_url S g db_content.content_type db_content.id))))) ∧
    ContentController.update_content S st cid u (some g) true false =
      ({ db := replace_record st.db cid
            (ContentService.update_content db_content u
              (some (StorageService.upload_url S g db_content.content_type db_content.id))),
         blobs := StorageService.unique_filename g db_content.content_type db_content.id ::
           st.blobs },
       .updated (ContentService.update_content db_content u
         (some (StorageService.upload_url S g db_content.content_type db_content.id)))) := by
  constructor
  · intro b2 heq
    rw [update_content_success_eq b2 hfind hv, heq]
    rw [if_neg (by simp)]
  · rw [update_content_success_eq false hfind hv]
    have hb : (if some (StorageService.upload_url S g db_content.content_type db_content.id) ≠
          db_content.storage_url then
        match db_content.storage_url with
        | some old_url =>
          if false = true then
            delete_key
              (StorageService.unique_filename g db_content.content_type db_content.id ::
                st.blobs) (key_from_url old_url)
          else
            StorageService.unique_filename g db_content.content_type db_content.id :: st.blobs
        | none =>
          StorageService.unique_filename g db_content.content_type db_content.id :: st.blobs
      else
        StorageService.unique_filename g db_content.content_type db_content.id :: st.blobs) =
        StorageService.unique_filename g db_content.content_type db_content.id :: st.blobs := by
      by_cases hc : some (StorageService.upload_url S g db_content.content_type db_content.id) ≠
          db_content.storage_url
      · rw [if_pos hc]
        cases hs : db_content.storage_url with
        | none => rfl
        | some o => rfl
      · rw [if_neg hc]
    rw [hb]

/-- A record whose storage URL is exactly the upload URL that a replacement
upload of `f1` would produce again (same extension, same key). -/
def recw5 : ContentRecord :=
  { id := "w5", title := some "t", description := some "d", content_type := .video,
    duration := some 5, thumbnail_url := none,
    storage_url := some (StorageService.upload_url S0 f1 .video "w5") }

def stw5 : SysState := { db := [recw5], blobs := ["video/w5.mp4"] }

theorem update_old_blob_cleanup_witness :
    ContentService.get_content stw5.db "w5" = some recw5 ∧
    ContentService.validate_file_type f1 recw5.content_type.value = true ∧
    ((∀ b2 : Bool,
        recw5.storage_url =
            some (StorageService.upload_url S0 f1 recw5.content_type recw5.id) →
          ContentController.update_content S0 stw5 "w5" uw (some f1) true b2 =
            ({ db := replace_record stw5.db "w5"
                  (ContentService.update_content recw5 uw
                    (some (StorageService.upload_url S0 f1 recw5.content_type recw5.id))),
               blobs := StorageService.unique_filename f1 recw5.content_type recw5.id ::
                 stw5.blobs },
             .updated (ContentService.update_content recw5 uw
               (some (StorageService.upload_url S0 f1 recw5.content_type recw5.id))))) ∧
      ContentController.update_content S0 stw5 "w5" uw (some f1) true false =
        ({ db := replace_record stw5.db "w5"
              (ContentService.update_content recw5 uw
                (some (StorageService.upload_url S0 f1 recw5.content_type recw5.id))),
           blobs := StorageService.unique_filename f1 recw5.content_type recw5.id ::
             stw5.blobs },
         .updated (ContentService.update_content recw5 uw
           (some (StorageService.upload_url S0 f1 recw5.content_type recw5.id))))) :=
  ⟨by decide, by decide,
    @update_old_blob_cleanup S0 stw5 "w5" uw f1 recw5 (by decide) (by decide)⟩

/-- C6: the MIME validation is exactly the fixed allow-list
video → mp4/mpeg, audio → mpeg/mp3/wav, and a file outside the allow-list of
the declared content type makes create return HTTP 400 with both stores
untouched and no record created. -/
theorem mime_allow_list {S : Settings} {st : SysState} {c : ContentCreate} {f : UploadFile}
    (cid : String) (b : Bool)
    (hv : ContentService.validate_file_type f c.content_type.value = false) :
    ContentController.create_content S st c f cid b = (st, .validationError) ∧
    CreateResult.validationError.status = 400 ∧
    allowed_video_types = ["video/mp4", "video/mpeg"] ∧
    allowed_audio_types = ["audio/mpeg", "audio/mp3", "audio/wav"] ∧
    ∀ (g : UploadFile) (ct : ContentType),
      ContentService.validate_file_type g ct.value = true ↔
        (ct = .video ∧ g.mime_type ∈ ["video/mp4", "video/mpeg"]) ∨
        (ct = .audio ∧ g.mime_type ∈ ["audio/mpeg", "audio/mp3", "audio/wav"]) := by
  refine ⟨create_content_invalid cid b hv, rfl, rfl, rfl, ?_⟩
  intro g ct
  cases ct with
  | video =>
    simp [ContentService.validate_file_type, ContentType.value, allowed_video_types]
  | audio =>
    simp [ContentService.validate_file_type, ContentType.value, allowed_audio_types]

/-- A text file, not acceptable for any declared content type. -/
def ftxt : UploadFile := { filename := "doc.txt", mime_type := "text/plain" }

theorem mime_allow_list_witness :
    ContentService.validate_file_type ftxt c0.content_type.value = false ∧
    (ContentController.create_content S0 init c0 ftxt "w6" true = (init, .validationError) ∧
      CreateResult.validationError.status = 400 ∧
      allowed_video_types = ["video/mp4", "video/mpeg"] ∧
      allowed_audio_types = ["audio/mpeg", "audio/mp3", "audio/wav"] ∧
      ∀ (g : UploadFile) (ct : ContentType),
        ContentService.validate_file_type g ct.value = true ↔
          (ct = .video ∧ g.mime_type ∈ ["video/mp4", "video/mpeg"]) ∨
          (ct = .audio ∧ g.mime_type ∈ ["audio/mpeg", "audio/mp3", "audio/wav"])) :=
  ⟨by decide, mime_allow_list "w6" true (by decide)⟩

/-- A record carrying a thumbnail, used to exhibit the partial-update bug. -/
def recw7 : ContentRecord :=
  { id := "w7", title := some "T", description := some "D", content_type := .video,
    duration := some 5, thumbnail_url := some "http://thumb",
    storage_url := some (url_of_key S0 "video/w7.mp4") }

def stw7 : SysState := { db := [recw7], blobs := ["video/w7.mp4"] }

/-- C7 (code bug): a metadata-only PUT supplying title, description and
duration but omitting thumbnail_url should leave the absent field untouched;
but the route passes every field explicitly to the ContentUpdate constructor
(content_routes.py lines 95-100), so `dict(exclude_unset=True)` keeps all
four and the absent thumbnail_url is overwritten with null.  The true parts
of the claim are visible too: storage_url is untouched and the object store
is not involved. -/
theorem route_update_clears_absent_fields :
    ContentController.update_content S0 stw7 "w7"
        (route_content_update (some "T2") (some "D2") (some 150) none) none true true =
      ({ db := [{ id := "w7", title := some "T2", description := some "D2",
                  content_type := .video, duration := some 150, thumbnail_url := none,
                  storage_url := some (url_of_key S0 "video/w7.mp4") }],
         blobs := ["video/w7.mp4"] },
       .updated { id := "w7", title := some "T2", description := some "D2",
                  content_type := .video, duration := some 150, thumbnail_url := none,
                  storage_url := some (url_of_key S0 "video/w7.mp4") }) := by
  decide

/-- C8: stream maps a missing id to the 404 not-found error; for an existing
id the presign capability is invoked on the key parsed from the stored URL
and returns none (rather than raising) on a store failure; none is surfaced
as the dedicated 500 URL-generation error, distinct from not-found in both
status pairing and detail, while a successful presign result is returned as
the redirect target. -/
theorem stream_error_mapping {st : SysState} {cid : String} {db_content : ContentRecord}
    {url : String}
    (hfind : ContentService.get_content st.db cid = some db_content)
    (hurl : db_content.storage_url = some url) :
    (∀ (st2 : SysState) (cid2 : String) (s3resp : String → Except Unit String),
        ContentService.get_content st2.db cid2 = none →
          ContentController.stream_content st2 cid2 s3resp = .notFound ∧
            StreamResult.notFound.status = 404) ∧
    (∀ (s3resp : String → Except Unit String) (e : Unit),
        s3resp (key_from_url url) = .error e →
          StorageService.generate_presigned_url s3resp url = none) ∧
    (∀ s3resp : String → Except Unit String,
        s3resp (key_from_url url) = .error () →
          ContentController.stream_content st cid s3resp = .urlFailed ∧
            StreamResult.urlFailed.status = 500 ∧
            StreamResult.urlFailed ≠ StreamResult.notFound ∧
            StreamResult.urlFailed.detail ≠ StreamResult.notFound.detail) ∧
    (∀ (s3resp : String → Except Unit String) (u : String),
        s3resp (key_from_url url) = .ok u →
          ContentController.stream_content st cid s3resp = .redirect u) := by
  refine ⟨?_, ?_, ?_, ?_⟩
  · intro st2 cid2 s3resp hn
    unfold ContentController.stream_content
    rw [hn]
    exact ⟨rfl, rfl⟩
  · intro s3resp e hresp
    unfold StorageService.generate_presigned_url
    rw [hresp]
  · intro s3resp hresp
    unfold ContentController.stream_content
    rw [hfind]
    simp only [hurl]
    unfold StorageService.generate_presigned_url
    rw [hresp]
    exact ⟨rfl, rfl, by decide, by decide⟩
  · intro s3resp u hresp
    unfold ContentController.stream_content
    rw [hfind]
    simp only [hurl]
    unfold StorageService.generate_presigned_url
    rw [hresp]

theorem stream_error_mapping_witness :
    ContentService.get_content stw3.db "w3" = some recw3 ∧
    recw3.storage_url = some (url_of_key S0 "video/w3.mp4") ∧
    ((∀ (st2 : SysState) (cid2 : String) (s3resp : String → Except Unit String),
        ContentService.get_content st2.db cid2 = none →
          ContentController.stream_content st2 cid2 s3resp = .notFound ∧
            StreamResult.notFound.status = 404) ∧
      (∀ (s3resp : String → Except Unit String) (e : Unit),
          s3resp (key_from_url (url_of_key S0 "video/w3.mp4")) = .error e →
            StorageService.generate_presigned_url s3resp (url_of_key S0 "video/w3.mp4") =
              none) ∧
      (∀ s3resp : String → Except Unit String,
          s3resp (key_from_url (url_of_key S0 "video/w3.mp4")) = .error () →
            ContentController.stream_content stw3 "w3" s3resp = .urlFailed ∧
              StreamResult.urlFailed.status = 500 ∧
              StreamResult.urlFailed ≠ StreamResult.notFound ∧
              StreamResult.urlFailed.detail ≠ StreamResult.notFound.detail) ∧
      (∀ (s3resp : String → Except Unit String) (u : String),
          s3resp (key_from_url (url_of_key S0 "video/w3.mp4")) = .ok u →
            ContentController.stream_content stw3 "w3" s3resp = .redirect u)) :=
  ⟨by decide, by decide,
    @stream_error_mapping stw3 "w3" recw3 (url_of_key S0 "video/w3.mp4")
      (by decide) (by decide)⟩

/-- C9: the upload key is derived deterministically as
`value ++ "/" ++ content_id ++ "." ++ extension`, where the extension is the
verbatim final dot-segment of the client-supplied filename, the content type
value is fixed under character-wise lower-casing (it is the lower-cased
canonical enum value, "video" or "audio"), and the returned storage reference
is the fully-qualified host prefix followed by exactly that key. -/
theorem upload_key_and_url (S : Settings) (f : UploadFile) (ct : ContentType) (cid : String) :
    StorageService.upload_url S f ct cid =
      ("https://" ++ S.STORAGE_BUCKET ++ ".s3." ++ S.AWS_REGION ++ ".amazonaws.com/") ++
        StorageService.unique_filename f ct cid ∧
    StorageService.unique_filename f ct cid =
      ct.value ++ "/" ++ cid ++ "." ++ file_extension f.filename ∧
    file_extension f.filename = ⟨(split_dots f.filename.data).getLastD []⟩ ∧
    ct.value.data.map Char.toLower = ct.value.data ∧
    (ct.value = "video" ∨ ct.value = "audio") := by
  refine ⟨?_, rfl, rfl, ?_, ?_⟩
  · apply String.ext
    simp [StorageService.upload_url, url_of_key, StorageService.unique_filename,
      String.data_append, List.append_assoc]
  · cases ct <;> decide
  · cases ct
    · exact Or.inl rfl
    · exact Or.inr rfl

/-- C10, counterexample: uploading filename `"movie.mp4?x"` stores the blob
under key `"video/0a1b.mp4?x"`, but parsing the returned URL truncates at the
`'?'` and yields `"video/0a1b.mp4"` — the round trip fails as stated. -/
theorem upload_parse_roundtrip_cex :
    key_from_url (StorageService.upload_url S0 f0 .video "0a1b") ≠
      StorageService.unique_filename f0 .video "0a1b" := by
  decide

/-- C10 (amended): for a UUID-shaped content id, AWS-well-formed bucket and
region names, and a filename whose derived extension contains none of the
characters URL parsing strips or splits on (`'?'`, `'#'`, `';'`, tab, CR,
LF), parsing the storage URL returned by upload and stripping the leading
slash recovers exactly the uploaded key, so delete and presign (which both
parse the stored URL this way) address the key the upload wrote. -/
theorem upload_parse_roundtrip {S : Settings} (hS : HostOk S) (f : UploadFile)
    (ct : ContentType) {cid : String} (hid : IdOk cid)
    (hext : ExtOk (file_extension f.filename)) :
    key_from_url (StorageService.upload_url S f ct cid) =
      StorageService.unique_filename f ct cid := by
  have h := @key_from_url_url_of_key S hS (mk_key ct cid (file_extension f.filename))
    (mk_key_ext_ok hid hext) mk_key_head
  rw [unique_filename_eq_mk_key]
  exact h

theorem upload_parse_roundtrip_witness :
    HostOk S0 ∧ IdOk "0a1b" ∧ ExtOk (file_extension f1.filename) ∧
    key_from_url (StorageService.upload_url S0 f1 .video "0a1b") =
      StorageService.unique_filename f1 .video "0a1b" :=
  ⟨by decide, by decide, by decide,
    upload_parse_roundtrip (by decide) f1 .video (by decide) (by decide)⟩

end ClinikkTV
